/-
  Verification of the Zeiterfassung-Prototype time-tracking application.

  The development shallowly embeds the data model and the operations of the
  repository in Lean:

  * `Json`, `jsonStringify`, `parseJson` model the host's `JSON.stringify` /
    `JSON.parse` pair used by the local-storage hook
    (src/hooks/use-local-storage.ts).  Numbers are modelled as integers (the
    application only stores integral currency amounts), and JSON strings are
    lists of characters with the escape sequences \" \\ \n \t \r.
  * `TimeEntry`, `Employee`, `Location` model src/types (ISO-8601 timestamp
    strings are modelled by their epoch-millisecond value, an order-preserving
    encoding of what `new Date(s).getTime()` computes; local-time arithmetic
    is modelled linearly, without daylight-saving discontinuities).
  * The store operations (`addTimeEntry`, `updateTimeEntry`, `deleteEmployee`,
    `deleteLocation`, ...) are translated from src/context/app-context.tsx.
  * The entry-form validation (`checkTimeEntryForm`) and submission
    (`submittedEntryData`) are translated from the zod schema and `onSubmit`
    handlers of the entry-form components.
  * The PDF layout bookkeeping is translated from src/lib/pdf-generator.ts.
  * The workload-assistant request construction is translated from
    src/components/app/workload-assistant.tsx and the genkit flow.
-/
import Mathlib

/-! ## A model of the JSON values the application stores

`JSON.stringify` / `JSON.parse` are host (browser) builtins, not repository
code; they are modelled here by an executable serializer and a recursive
descent reader over character lists.  The serializer emits no whitespace,
exactly as `JSON.stringify` does with no third argument. -/

/-- A JSON value.  Numbers carry integers: every number this application
persists (currency amounts) is integral. -/
inductive Json where
  | null : Json
  | bool (b : Bool) : Json
  | num (n : Int) : Json
  | str (s : List Char) : Json
  | arr (xs : List Json) : Json
  | obj (props : List (List Char × Json)) : Json

/-- The decimal digit character for a value below ten. -/
def digChar (d : Nat) : Char := Char.ofNat (48 + d % 10)

/-- The numeric value of a decimal digit character, when it is one. -/
def digOfChar (c : Char) : Option Nat :=
  if '0' ≤ c ∧ c ≤ '9' then some (c.toNat - 48) else none

/-- Whether a character is a decimal digit. -/
def isDigCh (c : Char) : Bool := (digOfChar c).isSome

/-- Decimal digit characters of a natural number, most significant first. -/
def natChars (n : Nat) : List Char :=
  if n < 10 then [digChar n]
  else natChars (n / 10) ++ [digChar (n % 10)]
termination_by n
decreasing_by
  have : n / 10 < n := Nat.div_lt_self (by omega) (by omega)
  omega

/-- Decimal rendering of an integer: optional minus sign, then digits. -/
def intChars (n : Int) : List Char :=
  if n < 0 then '-' :: natChars n.natAbs else natChars n.natAbs

/-- JSON escaping of one string character (quote, backslash and the common
control characters; all other characters stand for themselves). -/
def escSeq (c : Char) : List Char :=
  if c = '"' then ['\\', '"']
  else if c = '\\' then ['\\', '\\']
  else if c = '\n' then ['\\', 'n']
  else if c = '\t' then ['\\', 't']
  else if c = '\r' then ['\\', 'r']
  else [c]

/-- JSON escaping of a whole string body. -/
def escBody : List Char → List Char
  | [] => []
  | c :: cs => escSeq c ++ escBody cs

mutual

/-- The characters `JSON.stringify` produces for a value (no whitespace). -/
def jsonStringify : Json → List Char
  | .null => "null".toList
  | .bool true => "true".toList
  | .bool false => "false".toList
  | .num n => intChars n
  | .str s => '"' :: (escBody s ++ ['"'])
  | .arr xs => '[' :: (itemsChars xs ++ [']'])
  | .obj props => '{' :: (propsChars props ++ ['}'])

/-- Comma-separated renderings of the elements of an array. -/
def itemsChars : List Json → List Char
  | [] => []
  | [x] => jsonStringify x
  | x :: y :: ys => jsonStringify x ++ ',' :: itemsChars (y :: ys)

/-- Comma-separated renderings of the properties of an object. -/
def propsChars : List (List Char × Json) → List Char
  | [] => []
  | [(k, v)] => '"' :: (escBody k ++ '"' :: ':' :: jsonStringify v)
  | (k, v) :: p :: ps =>
    '"' :: (escBody k ++ '"' :: ':' :: (jsonStringify v ++ ',' :: propsChars (p :: ps)))

end

/-- The reverse of `escSeq` on the character following a backslash. -/
def unescSeq (c : Char) : Option Char :=
  if c = '"' then some '"'
  else if c = '\\' then some '\\'
  else if c = 'n' then some '\n'
  else if c = 't' then some '\t'
  else if c = 'r' then some '\r'
  else none

/-- Reads a string body up to its closing quote, undoing the escapes. -/
def parseJStr : List Char → Option (List Char × List Char)
  | [] => none
  | c :: cs =>
    if c = '"' then some ([], cs)
    else if c = '\\' then
      match cs with
      | [] => none
      | e :: cs2 =>
        match unescSeq e, parseJStr cs2 with
        | some d, some (s, r) => some (d :: s, r)
        | _, _ => none
    else
      match parseJStr cs with
      | some (s, r) => some (c :: s, r)
      | none => none
termination_by cs => cs.length
decreasing_by all_goals simp_arith

/-- Accumulated value of a run of digit characters. -/
def digsVal (ds : List Char) : Nat :=
  ds.foldl (fun a c => 10 * a + (digOfChar c).getD 0) 0

/-- Reads a nonempty run of digit characters. -/
def parseDigitRun (cs : List Char) : Option (Nat × List Char) :=
  if (cs.takeWhile isDigCh).isEmpty then none
  else some (digsVal (cs.takeWhile isDigCh), cs.dropWhile isDigCh)

/-- Reads an integer: optional minus sign, then digits. -/
def parseJNum (cs : List Char) : Option (Int × List Char) :=
  if cs.head? = some '-' then
    (parseDigitRun cs.tail).map (fun p => (-(p.1 : Int), p.2))
  else
    (parseDigitRun cs).map (fun p => ((p.1 : Int), p.2))

mutual

/-- Reads one JSON value; the fuel bounds the recursion into arrays and
objects and is in the end instantiated with the input length. -/
def parseJVal : Nat → List Char → Option (Json × List Char)
  | 0, _ => none
  | fuel + 1, cs =>
    match cs with
    | 'n' :: 'u' :: 'l' :: 'l' :: r => some (.null, r)
    | 't' :: 'r' :: 'u' :: 'e' :: r => some (.bool true, r)
    | 'f' :: 'a' :: 'l' :: 's' :: 'e' :: r => some (.bool false, r)
    | '"' :: r => (parseJStr r).map (fun p => (.str p.1, p.2))
    | '[' :: r =>
      match r with
      | ']' :: r2 => some (.arr [], r2)
      | _ => (parseJItems fuel r).map (fun p => (.arr p.1, p.2))
    | '{' :: r =>
      match r with
      | '}' :: r2 => some (.obj [], r2)
      | _ => (parseJProps fuel r).map (fun p => (.obj p.1, p.2))
    | _ => (parseJNum cs).map (fun p => (.num p.1, p.2))

/-- Reads the elements of a nonempty array, up to the closing bracket. -/
def parseJItems : Nat → List Char → Option (List Json × List Char)
  | 0, _ => none
  | fuel + 1, cs =>
    match parseJVal fuel cs with
    | none => none
    | some (v, r) =>
      match r with
      | ',' :: r2 => (parseJItems fuel r2).map (fun p => (v :: p.1, p.2))
      | ']' :: r2 => some ([v], r2)
      | _ => none

/-- Reads the properties of a nonempty object, up to the closing brace. -/
def parseJProps : Nat → List Char → Option (List (List Char × Json) × List Char)
  | 0, _ => none
  | fuel + 1, cs =>
    match cs with
    | '"' :: r =>
      match parseJStr r with
      | none => none
      | some (k, r1) =>
        match r1 with
        | ':' :: r2 =>
          match parseJVal fuel r2 with
          | none => none
          | some (v, r3) =>
            match r3 with
            | ',' :: r4 => (parseJProps fuel r4).map (fun p => ((k, v) :: p.1, p.2))
            | '}' :: r4 => some ([(k, v)], r4)
            | _ => none
        | _ => none
    | _ => none

end

/-- The model of `JSON.parse`: reads one value and requires the whole input
to be consumed. -/
def parseJson (cs : List Char) : Option Json :=
  match parseJVal (cs.length + 1) cs with
  | some (v, []) => some v
  | _ => none

/-! ### Round trip of the JSON codec: digit and number lemmas -/

theorem digOfChar_digChar {d : Nat} (h : d < 10) : digOfChar (digChar d) = some d := by
  interval_cases d <;> decide

theorem isDigCh_digChar {d : Nat} (h : d < 10) : isDigCh (digChar d) = true := by
  simp [isDigCh, digOfChar_digChar h]

theorem natChars_ne_nil (n : Nat) : natChars n ≠ [] := by
  rw [natChars]
  split <;> simp

theorem natChars_all_digit (n : Nat) : ∀ c ∈ natChars n, isDigCh c = true := by
  induction n using Nat.strong_induction_on with
  | _ n ih =>
    rw [natChars]
    split
    · intro c hc
      rw [List.mem_singleton] at hc
      subst hc
      exact isDigCh_digChar (by omega)
    · intro c hc
      rw [List.mem_append] at hc
      rcases hc with hc | hc
      · exact ih (n / 10) (Nat.div_lt_self (by omega) (by omega)) c hc
      · rw [List.mem_singleton] at hc
        subst hc
        exact isDigCh_digChar (Nat.mod_lt _ (by omega))

theorem digsVal_aux (n : Nat) : ∀ a : Nat,
    (natChars n).foldl (fun a c => 10 * a + (digOfChar c).getD 0) a
      = a * 10 ^ (natChars n).length + n := by
  induction n using Nat.strong_induction_on with
  | _ n ih =>
    intro a
    rw [natChars]
    split
    · rename_i h
      simp [digOfChar_digChar h]
      ring
    · rename_i h
      rw [List.foldl_append, ih (n / 10) (Nat.div_lt_self (by omega) (by omega)) a]
      have hm : (digOfChar (digChar (n % 10))).getD 0 = n % 10 := by
        rw [digOfChar_digChar (Nat.mod_lt _ (by omega))]
        rfl
      simp only [List.foldl_cons, List.foldl_nil, List.length_append, List.length_singleton, hm]
      have hdm : 10 * (n / 10) + n % 10 = n := by omega
      calc 10 * (a * 10 ^ (natChars (n / 10)).length + n / 10) + n % 10
          = 10 * (a * 10 ^ (natChars (n / 10)).length) + (10 * (n / 10) + n % 10) := by ring
        _ = a * 10 ^ ((natChars (n / 10)).length + 1) + n := by rw [hdm, pow_succ]; ring

theorem digsVal_natChars (n : Nat) : digsVal (natChars n) = n := by
  have := digsVal_aux n 0
  simpa [digsVal] using this

/-- Whether reading a number would stop at this remainder (no leading digit). -/
def noDigitHead : List Char → Bool
  | [] => true
  | c :: _ => !isDigCh c

theorem takeWhile_digits_append {l r : List Char} (hl : ∀ c ∈ l, isDigCh c = true)
    (hr : noDigitHead r = true) :
    (l ++ r).takeWhile isDigCh = l ∧ (l ++ r).dropWhile isDigCh = r := by
  induction l with
  | nil =>
    cases r with
    | nil => simp
    | cons c t =>
      simp only [noDigitHead, Bool.not_eq_true'] at hr
      simp [List.takeWhile_cons, List.dropWhile_cons, hr]
  | cons c t ih =>
    have hc : isDigCh c = true := hl c (by simp)
    have ht := ih (fun x hx => hl x (by simp [hx]))
    simp [List.takeWhile_cons, List.dropWhile_cons, hc, ht]

theorem parseDigitRun_natChars (n : Nat) {rest : List Char} (hr : noDigitHead rest = true) :
    parseDigitRun (natChars n ++ rest) = some (n, rest) := by
  obtain ⟨htake, hdrop⟩ := takeWhile_digits_append (natChars_all_digit n) hr
  rw [parseDigitRun, htake, hdrop]
  rw [if_neg (by simp [natChars_ne_nil n])]
  rw [digsVal_natChars]

theorem natChars_head (n : Nat) : ∃ c t, natChars n = c :: t ∧ isDigCh c = true := by
  cases h : natChars n with
  | nil => exact absurd h (natChars_ne_nil n)
  | cons c t =>
    refine ⟨c, t, rfl, natChars_all_digit n c ?_⟩
    rw [h]
    exact List.mem_cons_self c t

theorem parseJNum_intChars (n : Int) {rest : List Char} (hr : noDigitHead rest = true) :
    parseJNum (intChars n ++ rest) = some (n, rest) := by
  rw [intChars]
  split
  · rename_i hneg
    rw [List.cons_append, parseJNum]
    rw [if_pos (by simp)]
    simp only [List.tail_cons, parseDigitRun_natChars n.natAbs hr, Option.map_some']
    have : -((n.natAbs : Nat) : Int) = n := by omega
    rw [this]
  · rename_i hpos
    obtain ⟨c, t, hct, hc⟩ := natChars_head n.natAbs
    have hcm : c ≠ '-' := by
      intro h
      subst h
      exact absurd hc (by decide)
    rw [parseJNum, if_neg (by simp [hct, hcm]), parseDigitRun_natChars n.natAbs hr]
    simp only [Option.map_some']
    have : ((n.natAbs : Nat) : Int) = n := by omega
    rw [this]

/-! ### Round trip of the JSON codec: string lemmas -/

theorem parseJStr_esc_step (c : Char) (tail : List Char) :
    parseJStr (escSeq c ++ tail) =
      match parseJStr tail with
      | some (s, r) => some (c :: s, r)
      | none => none := by
  rcases h : parseJStr tail with _ | ⟨s, r⟩ <;>
    (rw [escSeq]
     split_ifs with h1 h2 h3 h4 h5 <;>
       first
         | (subst_vars
            rw [List.cons_append, parseJStr.eq_def]
            simp [unescSeq, h]
            done)
         | (rw [List.singleton_append, parseJStr.eq_def]
            simp only [if_neg h1, if_neg h2, h]))

theorem parseJStr_escBody (s : List Char) : ∀ rest : List Char,
    parseJStr (escBody s ++ '"' :: rest) = some (s, rest) := by
  induction s with
  | nil =>
    intro rest
    simp only [escBody, List.nil_append]
    rw [parseJStr.eq_def]
    simp
  | cons c t ih =>
    intro rest
    rw [escBody, List.append_assoc, parseJStr_esc_step, ih rest]

/-! ### Round trip of the JSON codec: value lemmas -/

theorem isDigCh_ne {c : Char} (h : isDigCh c = true) :
    c ≠ ']' ∧ c ≠ '}' ∧ c ≠ '-' ∧ c ≠ 'n' ∧ c ≠ 't' ∧ c ≠ 'f' ∧ c ≠ '"' ∧ c ≠ '[' ∧ c ≠ '{' := by
  refine ⟨?_, ?_, ?_, ?_, ?_, ?_, ?_, ?_, ?_⟩ <;> (rintro rfl; exact absurd h (by decide))

theorem intChars_head (n : Int) :
    ∃ c t, intChars n = c :: t ∧ (c = '-' ∨ isDigCh c = true) := by
  rw [intChars]
  split
  · exact ⟨'-', _, rfl, Or.inl rfl⟩
  · obtain ⟨c, t, hct, hc⟩ := natChars_head n.natAbs
    exact ⟨c, t, hct, Or.inr hc⟩

theorem jsonStringify_head (v : Json) :
    ∃ c t, jsonStringify v = c :: t ∧ c ≠ ']' ∧ c ≠ '}' := by
  cases v with
  | null => exact ⟨'n', _, rfl, by decide, by decide⟩
  | bool b =>
    cases b with
    | false => exact ⟨'f', _, rfl, by decide, by decide⟩
    | true => exact ⟨'t', _, rfl, by decide, by decide⟩
  | num n =>
    obtain ⟨c, t, hct, hc⟩ := intChars_head n
    refine ⟨c, t, by simp [jsonStringify, hct], ?_, ?_⟩ <;>
      (rcases hc with rfl | hd
       · decide
       · rcases isDigCh_ne hd with ⟨h1, h2, _⟩
         first
           | exact h1
           | exact h2)
  | str s => exact ⟨'"', _, rfl, by decide, by decide⟩
  | arr xs => exact ⟨'[', _, rfl, by decide, by decide⟩
  | obj props => exact ⟨'{', _, rfl, by decide, by decide⟩

theorem parseJVal_default {c : Char} (fuel : Nat) (t : List Char)
    (hn : c ≠ 'n') (ht : c ≠ 't') (hf : c ≠ 'f') (hq : c ≠ '"')
    (ha : c ≠ '[') (ho : c ≠ '{') :
    parseJVal (fuel + 1) (c :: t) = (parseJNum (c :: t)).map (fun p => (Json.num p.1, p.2)) := by
  rw [parseJVal.eq_def]
  split <;> simp_all

theorem parseJVal_arr (fuel : Nat) {c : Char} (t : List Char) (hc : c ≠ ']') :
    parseJVal (fuel + 1) ('[' :: c :: t)
      = (parseJItems fuel (c :: t)).map (fun p => (Json.arr p.1, p.2)) := by
  rw [parseJVal.eq_def]
  split <;> simp_all

theorem parseJVal_obj (fuel : Nat) {c : Char} (t : List Char) (hc : c ≠ '}') :
    parseJVal (fuel + 1) ('{' :: c :: t)
      = (parseJProps fuel (c :: t)).map (fun p => (Json.obj p.1, p.2)) := by
  rw [parseJVal.eq_def]
  split <;> simp_all

theorem itemsChars_head (x : Json) (xs : List Json) :
    ∃ c t, itemsChars (x :: xs) = c :: t ∧ c ≠ ']' ∧ c ≠ '}' := by
  obtain ⟨c, t0, hct, h1, h2⟩ := jsonStringify_head x
  cases xs with
  | nil => exact ⟨c, t0, by simp [itemsChars, hct], h1, h2⟩
  | cons y ys =>
    exact ⟨c, t0 ++ ',' :: itemsChars (y :: ys), by simp [itemsChars, hct], h1, h2⟩

theorem parseJItems_step (f : Nat) (cs : List Char) :
    parseJItems (f + 1) cs =
      match parseJVal f cs with
      | none => none
      | some (v, r) =>
        match r with
        | ',' :: r2 => (parseJItems f r2).map (fun p => (v :: p.1, p.2))
        | ']' :: r2 => some ([v], r2)
        | _ => none := rfl

theorem parseJProps_step (f : Nat) (cs : List Char) :
    parseJProps (f + 1) cs =
      match cs with
      | '"' :: r =>
        match parseJStr r with
        | none => none
        | some (k, r1) =>
          match r1 with
          | ':' :: r2 =>
            match parseJVal f r2 with
            | none => none
            | some (v, r3) =>
              match r3 with
              | ',' :: r4 => (parseJProps f r4).map (fun p => ((k, v) :: p.1, p.2))
              | '}' :: r4 => some ([(k, v)], r4)
              | _ => none
          | _ => none
      | _ => none := rfl

mutual

theorem rtVal : ∀ (v : Json) (fuel : Nat) (rest : List Char),
    (jsonStringify v).length < fuel → noDigitHead rest = true →
    parseJVal fuel (jsonStringify v ++ rest) = some (v, rest)
  | .null, fuel, rest, hf, _ => by
    cases fuel with
    | zero => exact absurd hf (Nat.not_lt_zero _)
    | succ f =>
      rw [show jsonStringify Json.null ++ rest = 'n' :: 'u' :: 'l' :: 'l' :: rest from rfl]
      rw [parseJVal.eq_def]
      rfl
  | .bool true, fuel, rest, hf, _ => by
    cases fuel with
    | zero => exact absurd hf (Nat.not_lt_zero _)
    | succ f =>
      rw [show jsonStringify (Json.bool true) ++ rest = 't' :: 'r' :: 'u' :: 'e' :: rest from rfl]
      rw [parseJVal.eq_def]
      rfl
  | .bool false, fuel, rest, hf, _ => by
    cases fuel with
    | zero => exact absurd hf (Nat.not_lt_zero _)
    | succ f =>
      rw [show jsonStringify (Json.bool false) ++ rest
            = 'f' :: 'a' :: 'l' :: 's' :: 'e' :: rest from rfl]
      rw [parseJVal.eq_def]
      rfl
  | .num n, fuel, rest, hf, hr => by
    cases fuel with
    | zero => exact absurd hf (Nat.not_lt_zero _)
    | succ f =>
      obtain ⟨c, t, hct, hc⟩ := intChars_head n
      have hne : c ≠ 'n' ∧ c ≠ 't' ∧ c ≠ 'f' ∧ c ≠ '"' ∧ c ≠ '[' ∧ c ≠ '{' := by
        rcases hc with rfl | hd
        · exact ⟨by decide, by decide, by decide, by decide, by decide, by decide⟩
        · rcases isDigCh_ne hd with ⟨_, _, _, h4, h5, h6, h7, h8, h9⟩
          exact ⟨h4, h5, h6, h7, h8, h9⟩
      rw [show jsonStringify (Json.num n) = intChars n from rfl, hct, List.cons_append]
      rw [parseJVal_default f (t ++ rest) hne.1 hne.2.1 hne.2.2.1 hne.2.2.2.1
            hne.2.2.2.2.1 hne.2.2.2.2.2]
      rw [← List.cons_append, ← hct, parseJNum_intChars n hr]
      rfl
  | .str s, fuel, rest, hf, _ => by
    cases fuel with
    | zero => exact absurd hf (Nat.not_lt_zero _)
    | succ f =>
      rw [show jsonStringify (Json.str s) ++ rest
            = '"' :: (escBody s ++ '"' :: rest) from by simp [jsonStringify]]
      rw [parseJVal.eq_def]
      simp [parseJStr_escBody s rest]
  | .arr [], fuel, rest, hf, _ => by
    cases fuel with
    | zero => exact absurd hf (Nat.not_lt_zero _)
    | succ f =>
      rw [show jsonStringify (Json.arr []) ++ rest = '[' :: ']' :: rest from by
        simp [jsonStringify, itemsChars]]
      rw [parseJVal.eq_def]
      rfl
  | .arr (x :: xs), fuel, rest, hf, _ => by
    cases fuel with
    | zero => exact absurd hf (Nat.not_lt_zero _)
    | succ f =>
      obtain ⟨c, t, hct, hc, _⟩ := itemsChars_head x xs
      have hlen : (jsonStringify (Json.arr (x :: xs))).length
          = (itemsChars (x :: xs)).length + 2 := by
        simp [jsonStringify]
      have hfuel : (itemsChars (x :: xs)).length + 1 < f := by omega
      rw [show jsonStringify (Json.arr (x :: xs)) ++ rest
            = '[' :: (c :: (t ++ ']' :: rest)) from by simp [jsonStringify, hct]]
      rw [parseJVal_arr f _ hc]
      rw [show c :: (t ++ ']' :: rest) = itemsChars (x :: xs) ++ ']' :: rest from by
        rw [hct]; simp]
      rw [rtItems x xs f rest hfuel]
      rfl
  | .obj [], fuel, rest, hf, _ => by
    cases fuel with
    | zero => exact absurd hf (Nat.not_lt_zero _)
    | succ f =>
      rw [show jsonStringify (Json.obj []) ++ rest = '{' :: '}' :: rest from by
        simp [jsonStringify, propsChars]]
      rw [parseJVal.eq_def]
      rfl
  | .obj ((k, v) :: ps), fuel, rest, hf, _ => by
    cases fuel with
    | zero => exact absurd hf (Nat.not_lt_zero _)
    | succ f =>
      have hlen : (jsonStringify (Json.obj ((k, v) :: ps))).length
          = (propsChars ((k, v) :: ps)).length + 2 := by
        simp [jsonStringify]
      have hfuel : (propsChars ((k, v) :: ps)).length + 1 < f := by omega
      obtain ⟨c, t, hct⟩ : ∃ c t, propsChars ((k, v) :: ps) = c :: t ∧ c = '"' := by
        cases ps with
        | nil => exact ⟨'"', _, rfl, rfl⟩
        | cons q qs => exact ⟨'"', _, rfl, rfl⟩
      rw [show jsonStringify (Json.obj ((k, v) :: ps)) ++ rest
            = '{' :: (c :: (t ++ '}' :: rest)) from by simp [jsonStringify, hct.1]]
      rw [parseJVal_obj f _ (by rw [hct.2]; decide)]
      rw [show c :: (t ++ '}' :: rest) = propsChars ((k, v) :: ps) ++ '}' :: rest from by
        rw [hct.1]; simp]
      rw [rtProps (k, v) ps f rest hfuel]
      rfl

termination_by v _ _ _ _ => sizeOf v

theorem rtItems : ∀ (x : Json) (xs : List Json) (fuel : Nat) (rest : List Char),
    (itemsChars (x :: xs)).length + 1 < fuel →
    parseJItems fuel (itemsChars (x :: xs) ++ ']' :: rest) = some (x :: xs, rest)
  | x, [], fuel, rest, hf => by
    cases fuel with
    | zero => exact absurd hf (Nat.not_lt_zero _)
    | succ f =>
      have hone : itemsChars [x] = jsonStringify x := by simp [itemsChars]
      have hx : (jsonStringify x).length < f := by
        rw [hone] at hf; omega
      rw [hone, parseJItems_step]
      rw [rtVal x f (']' :: rest) hx rfl]
      rfl
  | x, y :: ys, fuel, rest, hf => by
    cases fuel with
    | zero => exact absurd hf (Nat.not_lt_zero _)
    | succ f =>
      have hcons : itemsChars (x :: y :: ys)
          = jsonStringify x ++ ',' :: itemsChars (y :: ys) := by simp [itemsChars]
      have hx : (jsonStringify x).length < f := by
        rw [hcons] at hf; simp at hf; omega
      have hys : (itemsChars (y :: ys)).length + 1 < f := by
        rw [hcons] at hf; simp at hf; omega
      rw [hcons, parseJItems_step]
      rw [show (jsonStringify x ++ ',' :: itemsChars (y :: ys)) ++ ']' :: rest
            = jsonStringify x ++ ',' :: (itemsChars (y :: ys) ++ ']' :: rest) from by simp]
      rw [rtVal x f (',' :: (itemsChars (y :: ys) ++ ']' :: rest)) hx rfl]
      show (parseJItems f (itemsChars (y :: ys) ++ ']' :: rest)).map
          (fun p => (x :: p.1, p.2)) = some (x :: y :: ys, rest)
      rw [rtItems y ys f rest hys]
      rfl

termination_by x xs _ _ _ => sizeOf x + sizeOf xs

theorem rtProps : ∀ (q : List Char × Json) (ps : List (List Char × Json))
    (fuel : Nat) (rest : List Char),
    (propsChars (q :: ps)).length + 1 < fuel →
    parseJProps fuel (propsChars (q :: ps) ++ '}' :: rest) = some (q :: ps, rest)
  | (k, v), [], fuel, rest, hf => by
    cases fuel with
    | zero => exact absurd hf (Nat.not_lt_zero _)
    | succ f =>
      have hone : propsChars [(k, v)] = '"' :: (escBody k ++ '"' :: ':' :: jsonStringify v) := by
        simp [propsChars]
      have hv : (jsonStringify v).length < f := by
        rw [hone] at hf; simp at hf; omega
      rw [hone, parseJProps_step]
      rw [show ('"' :: (escBody k ++ '"' :: ':' :: jsonStringify v)) ++ '}' :: rest
            = '"' :: (escBody k ++ '"' :: (':' :: (jsonStringify v ++ '}' :: rest))) from by simp]
      simp only [parseJStr_escBody k (':' :: (jsonStringify v ++ '}' :: rest))]
      rw [rtVal v f ('}' :: rest) hv rfl]
      rfl
  | (k, v), p :: ps, fuel, rest, hf => by
    cases fuel with
    | zero => exact absurd hf (Nat.not_lt_zero _)
    | succ f =>
      have hcons : propsChars ((k, v) :: p :: ps)
          = '"' :: (escBody k ++ '"' :: ':' :: (jsonStringify v ++ ',' :: propsChars (p :: ps))) := by
        simp [propsChars]
      have hv : (jsonStringify v).length < f := by
        rw [hcons] at hf; simp at hf; omega
      have hps : (propsChars (p :: ps)).length + 1 < f := by
        rw [hcons] at hf; simp at hf; omega
      rw [hcons, parseJProps_step]
      rw [show ('"' :: (escBody k ++ '"' :: ':'
              :: (jsonStringify v ++ ',' :: propsChars (p :: ps)))) ++ '}' :: rest
            = '"' :: (escBody k ++ '"' :: (':' :: (jsonStringify v
              ++ ',' :: (propsChars (p :: ps) ++ '}' :: rest)))) from by simp]
      simp only [parseJStr_escBody k
        (':' :: (jsonStringify v ++ ',' :: (propsChars (p :: ps) ++ '}' :: rest)))]
      rw [rtVal v f (',' :: (propsChars (p :: ps) ++ '}' :: rest)) hv rfl]
      show (parseJProps f (propsChars (p :: ps) ++ '}' :: rest)).map
          (fun p => ((k, v) :: p.1, p.2)) = some ((k, v) :: p :: ps, rest)
      rw [rtProps p ps f rest hps]
      rfl
termination_by q ps _ _ _ => sizeOf q + sizeOf ps

end

/-- The codec round trip: reading back a stringified value recovers it. -/
theorem parseJson_stringify (v : Json) : parseJson (jsonStringify v) = some v := by
  rw [parseJson]
  have h := rtVal v ((jsonStringify v).length + 1) [] (by omega) rfl
  rw [List.append_nil] at h
  rw [h]

/-- A stringified value is never the empty string (relevant because the hook
treats an empty stored string as absent). -/
theorem jsonStringify_ne_nil (v : Json) : jsonStringify v ≠ [] := by
  obtain ⟨c, t, hct, _, _⟩ := jsonStringify_head v
  rw [hct]
  exact List.cons_ne_nil c t

/-! ## The data model (src/types)

ISO-8601 timestamp strings are modelled by their epoch-millisecond value: all
the code's comparisons go through `new Date(s).getTime()`, which this encodes
order-faithfully. -/

/-- A recorded work session (`TimeEntry` in src/types). -/
structure TimeEntry where
  id : String
  employeeId : String
  locationId : String
  startTime : Int
  endTime : Int
  paid : Bool
  amount : Option Int
deriving DecidableEq, Repr

/-- An employee record (`Employee` in src/types). -/
structure Employee where
  id : String
  name : String
deriving DecidableEq, Repr

/-- A work location record (`Location` in src/types). -/
structure Location where
  id : String
  name : String
deriving DecidableEq, Repr

/-- Character rendering standing in for the ISO-8601 string of an
epoch-millisecond timestamp (an injective encoding; the claims only use that
the stored field is a string). -/
def isoChars (t : Int) : List Char := intChars t

/-- The JSON object `JSON.stringify` sees for a time entry; an undefined
`amount` is omitted, exactly as `JSON.stringify` drops undefined properties. -/
def TimeEntry.toJson (e : TimeEntry) : Json :=
  .obj ([("id".toList, .str e.id.toList),
         ("employeeId".toList, .str e.employeeId.toList),
         ("locationId".toList, .str e.locationId.toList),
         ("startTime".toList, .str (isoChars e.startTime)),
         ("endTime".toList, .str (isoChars e.endTime)),
         ("paid".toList, .bool e.paid)]
        ++ (match e.amount with
            | some a => [("amount".toList, .num a)]
            | none => []))

/-- The JSON object stored for an employee. -/
def Employee.toJson (e : Employee) : Json :=
  .obj [("id".toList, .str e.id.toList), ("name".toList, .str e.name.toList)]

/-- The JSON object stored for a location. -/
def Location.toJson (l : Location) : Json :=
  .obj [("id".toList, .str l.id.toList), ("name".toList, .str l.name.toList)]

/-! ## The local-storage hook (src/hooks/use-local-storage.ts)

The hook reads `window.localStorage.getItem(key)` inside try/catch, parses a
present nonempty item, and falls back to the initial value; it writes
`JSON.stringify(value)` inside try/catch.  Storage access is modelled as an
association list of raw character strings; a thrown access error is an
`Except.error`. -/

/-- The browser's string-keyed store (most recent write first). -/
structure LocalStorage where
  items : List (String × List Char)
deriving DecidableEq, Repr

/-- Reads `localStorage.getItem`: the most recently stored value under the key. -/
def LocalStorage.getItem (st : LocalStorage) (key : String) : Option (List Char) :=
  (st.items.find? (fun p => p.1 == key)).map (fun p => p.2)

/-- Writes `localStorage.setItem`. -/
def LocalStorage.setItem (st : LocalStorage) (key : String) (val : List Char) : LocalStorage :=
  ⟨(key, val) :: st.items⟩

/-- The hook's read path (use-local-storage lines 8-16): a present nonempty
item is parsed, anything else falls back to the initial value; a thrown
storage-access or parse exception is caught and logged.  The Boolean records
whether an error was logged to the console. -/
def getStoredValue (access : Except Unit (Option (List Char))) (initialValue : Json) :
    Json × Bool :=
  match access with
  | .error _ => (initialValue, true)
  | .ok none => (initialValue, false)
  | .ok (some item) =>
    if item.isEmpty then (initialValue, false)
    else
      match parseJson item with
      | some v => (v, false)
      | none => (initialValue, true)

/-- The hook's write effect (use-local-storage lines 22-29): stringify and
store; a thrown exception (modelled by `canWrite = false`) leaves the store
unchanged and is logged.  The in-memory value is returned untouched: the
effect never modifies the state it synchronizes. -/
def writeStoredValue (st : LocalStorage) (canWrite : Bool) (key : String) (value : Json) :
    LocalStorage × Json × Bool :=
  if canWrite then (st.setItem key (jsonStringify value), value, false)
  else (st, value, true)

/-! ## The store state and operations (src/context/app-context.tsx) -/

/-- The three local-storage-backed arrays of `AppProvider`. -/
structure AppState where
  timeEntries : List TimeEntry
  employees : List Employee
  locations : List Location
deriving DecidableEq, Repr

/-- The paid flag `addTimeEntry` computes:
`entry.amount !== undefined && entry.amount > 0`. -/
def paidOfAmount (amount : Option Int) : Bool :=
  amount.isSome && 0 < amount.getD 0

/-- The argument of `addTimeEntry` (`Omit<TimeEntry, 'id' | 'paid'>`). -/
structure NewTimeEntry where
  employeeId : String
  locationId : String
  startTime : Int
  endTime : Int
  amount : Option Int
deriving DecidableEq, Repr

/-- Translation of `addTimeEntry` (app-context lines 37-41): computes the paid flag, attaches
the generated id (`crypto.randomUUID()`, passed here as `freshId`) and
prepends the new entry. -/
def addTimeEntry (freshId : String) (entry : NewTimeEntry) (prev : List TimeEntry) :
    List TimeEntry :=
  { id := freshId, employeeId := entry.employeeId, locationId := entry.locationId,
    startTime := entry.startTime, endTime := entry.endTime,
    paid := paidOfAmount entry.amount, amount := entry.amount } :: prev

/-- Translation of `updateTimeEntry` (lines 43-47): replaces the entry with the matching id. -/
def updateTimeEntry (updatedEntry : TimeEntry) (prev : List TimeEntry) : List TimeEntry :=
  prev.map (fun entry => if entry.id == updatedEntry.id then updatedEntry else entry)

/-- Translation of `deleteTimeEntry` (lines 49-51). -/
def deleteTimeEntry (id : String) (prev : List TimeEntry) : List TimeEntry :=
  prev.filter (fun entry => entry.id != id)

/-- A toast notification, with its translation keys and variant. -/
structure Toast where
  title : String
  description : String
  variant : String
deriving DecidableEq, Repr

/-- Translation of `deleteEmployee` (lines 62-73): an employee referenced by some entry is
kept, with a destructive toast; otherwise the employee list is filtered. -/
def deleteEmployee (id : String) (s : AppState) : AppState × Option Toast :=
  let hasEntries := s.timeEntries.any (fun entry => entry.employeeId == id)
  if hasEntries then
    (s, some { title := "deleteErrorTitle", description := "deleteEmployeeErrorDescription",
               variant := "destructive" })
  else
    ({ s with employees := s.employees.filter (fun employee => employee.id != id) }, none)

/-- Translation of `deleteLocation` (lines 80-91): the analogous guard for locations. -/
def deleteLocation (id : String) (s : AppState) : AppState × Option Toast :=
  let hasEntries := s.timeEntries.any (fun entry => entry.locationId == id)
  if hasEntries then
    (s, some { title := "deleteErrorTitle", description := "deleteLocationErrorDescription",
               variant := "destructive" })
  else
    ({ s with locations := s.locations.filter (fun location => location.id != id) }, none)

/-- The payment-dialog submission (`onPaymentSubmit`): marks the entry paid
with the entered amount. -/
def paymentSubmitEntry (entry : TimeEntry) (amount : Int) : TimeEntry :=
  { entry with paid := true, amount := some amount }

/-- The unmark actions (`handleMarkAsUnpaid`, the detail checkbox): clear the
paid flag and the amount. -/
def markAsUnpaidEntry (entry : TimeEntry) : TimeEntry :=
  { entry with paid := false, amount := none }

/-- The invariant named by the spec: an entry with a defined amount is paid. -/
def amountImpliesPaid (entries : List TimeEntry) : Bool :=
  entries.all (fun e => e.amount.isNone || e.paid)

/-! ## The entry form (time-log-list.tsx / employee-management.tsx)

The zod schema `timeEntrySchema` validates the two time fields against
`^([01]\d|2[0-3]):([0-5]\d)$` and refines the pair by comparing the two
times on one fixed day; `onSubmit` then builds the entry's timestamps from
the selected day and the fields' hours and minutes. -/

/-- The regex `^([01]\d|2[0-3]):([0-5]\d)$` on a raw time-field value. -/
def timeRegexOk : List Char → Bool
  | [h1, h2, ':', m1, m2] =>
    ((h1 == '0' || h1 == '1') && isDigCh h2
      || h1 == '2' && (h2 == '0' || h2 == '1' || h2 == '2' || h2 == '3'))
    && ((m1 == '0' || m1 == '1' || m1 == '2' || m1 == '3' || m1 == '4' || m1 == '5')
        && isDigCh m2)
  | _ => false

/-- The hours component a form handler reads from an HH:mm field. -/
def timeFieldHours : List Char → Nat
  | h1 :: h2 :: _ => 10 * (digOfChar h1).getD 0 + (digOfChar h2).getD 0
  | _ => 0

/-- The minutes component a form handler reads from an HH:mm field. -/
def timeFieldMins : List Char → Nat
  | [_, _, _, m1, m2] => 10 * (digOfChar m1).getD 0 + (digOfChar m2).getD 0
  | _ => 0

/-- The raw values of the entry form (employee-management lines 32-45; the
amount field is absent in the add form of time-log-list). -/
structure TimeEntryFormValues where
  employeeId : String
  locationId : String
  startTime : List Char
  endTime : List Char
  amount : Option Int
deriving DecidableEq, Repr

/-- The whole `timeEntrySchema` check: nonempty ids, both time fields against
the regex, and the refinement comparing the two times on one fixed day. -/
def checkTimeEntryForm (v : TimeEntryFormValues) : Bool :=
  decide (1 ≤ v.employeeId.length) && decide (1 ≤ v.locationId.length)
    && timeRegexOk v.startTime && timeRegexOk v.endTime
    && decide (60 * timeFieldHours v.startTime + timeFieldMins v.startTime
        < 60 * timeFieldHours v.endTime + timeFieldMins v.endTime)

/-- Translation of `createDate` in `onSubmit`: the selected day with the field's hours and
minutes set and seconds and milliseconds zeroed (local time modelled linearly,
without daylight-saving discontinuities). -/
def createDate (selectedDay : Int) (timeField : List Char) : Int :=
  selectedDay + 3600000 * (timeFieldHours timeField : Int) + 60000 * (timeFieldMins timeField)

/-- The entry data an accepted submission passes to `addTimeEntry`
(`onSubmit`, employee-management lines 99-116). -/
def submittedEntryData (selectedDay : Int) (v : TimeEntryFormValues) : NewTimeEntry :=
  { employeeId := v.employeeId, locationId := v.locationId,
    startTime := createDate selectedDay v.startTime,
    endTime := createDate selectedDay v.endTime,
    amount := v.amount }

/-- The entry the edit form passes to `updateTimeEntry`
(`{ ...entryData, id: editingEntry.id, paid: editingEntry.paid }`). -/
def editedEntry (selectedDay : Int) (v : TimeEntryFormValues) (editing : TimeEntry) : TimeEntry :=
  { id := editing.id, employeeId := v.employeeId, locationId := v.locationId,
    startTime := createDate selectedDay v.startTime,
    endTime := createDate selectedDay v.endTime,
    paid := editing.paid, amount := v.amount }

/-! ## The workload assistant (src/components/app/workload-assistant.tsx) -/

/-- The entry shape the assistant works on (it reads `entry.employeeName`). -/
structure WorkloadEntry where
  employeeName : String
  startTime : Int
  endTime : Int
deriving DecidableEq, Repr

/-- Modelled from the spec: `calculateDurationInHours` lives in src/lib/utils,
which is not among the sources; the spec describes the assistant as
aggregating hour totals, so a session's duration in hours is its millisecond
span divided by one hour. -/
def calculateDurationInHours (startTime endTime : Int) : ℚ :=
  ((endTime - startTime : Int) : ℚ) / 3600000

/-- JavaScript's `Math.round`: half rounds toward positive infinity. -/
def jsRound (q : ℚ) : Int := ⌊q + 1 / 2⌋

/-- The request payload of the genkit flow
(`EmployeeWorkloadRecommendationInputSchema`): exactly the employee name and
the three numeric workload figures. -/
structure RecommendationInput where
  employeeName : String
  totalHoursWorked : Int
  averageWorkloadLimit : ℚ
  maxWorkloadLimit : ℚ
deriving DecidableEq, Repr

/-- The response payload (`EmployeeWorkloadRecommendationOutputSchema`). -/
structure RecommendationOutput where
  recommendation : String
deriving DecidableEq, Repr

/-- The `onSubmit` aggregation (workload-assistant lines 46-64): the selected
employee's entries started within the last seven days, their hours summed and
rounded, combined with the two form limits. -/
def workloadRequest (now : Int) (entries : List WorkloadEntry) (employeeName : String)
    (averageWorkloadLimit maxWorkloadLimit : ℚ) : RecommendationInput :=
  let sevenDaysAgo := now - 7 * 86400000
  let employeeEntries := entries.filter
    (fun e => e.employeeName == employeeName && sevenDaysAgo < e.startTime)
  let totalHoursWorked :=
    (employeeEntries.map (fun e => calculateDurationInHours e.startTime e.endTime)).sum
  { employeeName := employeeName,
    totalHoursWorked := jsRound totalHoursWorked,
    averageWorkloadLimit := averageWorkloadLimit,
    maxWorkloadLimit := maxWorkloadLimit }

/-- The genkit flow calls the text model once on the input and returns its
output; the component displays `result.recommendation`. -/
def displayedRecommendation (model : RecommendationInput → RecommendationOutput)
    (now : Int) (entries : List WorkloadEntry) (employeeName : String)
    (averageWorkloadLimit maxWorkloadLimit : ℚ) : String :=
  (model (workloadRequest now entries employeeName
      averageWorkloadLimit maxWorkloadLimit)).recommendation

/-! ## The PDF report generator (src/lib/pdf-generator.ts)

Only the cursor bookkeeping is modelled; each drawing call is kept as the
cursor movement it performs. -/

/-- Layout constants (pdf-generator lines 10-16), in millimetres. -/
def PAGE_HEIGHT : Int := 297

/-- The page margin. -/
def MARGIN : Int := 15

/-- The page-header reserve. -/
def HEADER_HEIGHT : Int := 40

/-- The page-footer reserve. -/
def FOOTER_HEIGHT : Int := 20

/-- The usable content height per page. -/
def PAGE_CONTENT_HEIGHT : Int := PAGE_HEIGHT - HEADER_HEIGHT - FOOTER_HEIGHT

/-- The fixed table-row height of `drawTableRow`. -/
def tableRowHeight : Int := 12

/-- The generator's cursor: current page and y position. -/
structure PdfCursor where
  page : Nat
  cursorY : Int
deriving DecidableEq, Repr

/-- Translation of `drawPageHeader`: cursor to the margin, two title lines (+15), divider
(+10). -/
def drawPageHeader (s : PdfCursor) : PdfCursor :=
  { s with cursorY := MARGIN + 15 + 10 }

/-- Translation of `drawEmployeeDetails`: section label (+5) and details card (+20). -/
def drawEmployeeDetails (s : PdfCursor) : PdfCursor :=
  { s with cursorY := s.cursorY + 5 + 20 }

/-- Translation of `drawSummary`: section label (+5) and the two summary cards (+30). -/
def drawSummary (s : PdfCursor) : PdfCursor :=
  { s with cursorY := s.cursorY + 5 + 30 }

/-- Translation of `drawTableHeader`: section label (+8) and the header row (+10). -/
def drawTableHeader (s : PdfCursor) : PdfCursor :=
  { s with cursorY := s.cursorY + 8 + 10 }

/-- Translation of `drawTableRow` (lines 211-218, 283-286): when the row would no longer fit
the content height, a page is added and the page header and table header are
redrawn; then the row is drawn at the cursor and the cursor advances by the
row height.  Returns the new cursor and the page and y position the row was
drawn at. -/
def drawTableRow (s : PdfCursor) : PdfCursor × Nat × Int :=
  let s1 := if PAGE_CONTENT_HEIGHT < s.cursorY + tableRowHeight then
      drawTableHeader (drawPageHeader { s with page := s.page + 1 })
    else s
  ({ s1 with cursorY := s1.cursorY + tableRowHeight }, s1.page, s1.cursorY)

/-- The cursor after the initial sections of `generatePdfReport`
(lines 288-292). -/
def pdfInitialCursor : PdfCursor :=
  drawTableHeader (drawSummary (drawEmployeeDetails (drawPageHeader { page := 1, cursorY := 0 })))

/-- One `drawTableRow` per entry, collecting where each row was drawn. -/
def drawRows (s : PdfCursor) : List TimeEntry → PdfCursor × List (Nat × Int)
  | [] => (s, [])
  | _ :: rest =>
    let step := drawTableRow s
    let next := drawRows step.1 rest
    (next.1, step.2 :: next.2)

/-- Translation of `sortedEntries` (line 294): the entries sorted by start time, newest
first (`Array.prototype.sort` is stable; modelled by a stable merge sort). -/
def sortedEntries (entries : List TimeEntry) : List TimeEntry :=
  entries.mergeSort (fun a b => decide (b.startTime ≤ a.startTime))

/-- The page and y position of every table row the report draws, in drawing
order. -/
def pdfRowPositions (entries : List TimeEntry) : List (Nat × Int) :=
  (drawRows pdfInitialCursor (sortedEntries entries)).2

/-- Truthiness of an optional number in JavaScript (`entry.amount` is falsy
when undefined or zero). -/
def jsTruthy : Option Int → Bool
  | none => false
  | some a => a != 0

/-- The report's total-hours figure (lines 38-43): each entry contributes its
duration in hours when that duration is positive, and zero otherwise. -/
def pdfTotalHours (entries : List TimeEntry) : ℚ :=
  entries.foldl (fun acc entry =>
    acc + (if 0 < entry.endTime - entry.startTime
      then ((entry.endTime - entry.startTime : Int) : ℚ) / 3600000 else 0)) 0

/-- The report's total-paid figure (lines 45-47): the amounts of the entries
that are paid with a truthy amount, summed. -/
def pdfTotalPaid (entries : List TimeEntry) : Int :=
  (entries.filter (fun entry => entry.paid && jsTruthy entry.amount)).foldl
    (fun acc entry => acc + entry.amount.getD 0) 0

/-- The JSON value `AppProvider` stores under the `timeEntries` key. -/
def storedTimeEntries (entries : List TimeEntry) : Json :=
  .arr (entries.map TimeEntry.toJson)

/-- The JSON value `AppProvider` stores under the `employees` key. -/
def storedEmployees (employees : List Employee) : Json :=
  .arr (employees.map Employee.toJson)

/-- The JSON value `AppProvider` stores under the `locations` key. -/
def storedLocations (locations : List Location) : Json :=
  .arr (locations.map Location.toJson)

/-- The JSON value `LanguageProvider` stores under the `language` key: the
language code string (initially `ar`). -/
def storedLanguage (language : String) : Json := .str language.toList

/-- Whether a raw stored string is the JSON encoding of an array. -/
def isArrayEncoding (cs : List Char) : Bool :=
  match parseJson cs with
  | some (.arr _) => true
  | _ => false

/-! ## Helper lemmas -/

theorem foldl_add_eq {α M : Type} [AddCommMonoid M] (f : α → M) :
    ∀ (l : List α) (a : M), l.foldl (fun acc x => acc + f x) a = a + (l.map f).sum := by
  intro l
  induction l with
  | nil => intro a; simp
  | cons x xs ih =>
    intro a
    simp only [List.foldl_cons, List.map_cons, List.sum_cons, ih (a + f x)]
    rw [add_assoc]

theorem paidOfAmount_iff (amount : Option Int) :
    paidOfAmount amount = true ↔ ∃ a, amount = some a ∧ 0 < a := by
  cases amount <;> simp [paidOfAmount]

/-! ## The claims -/

/-- C1: the entry-form validation accepts a submission only when its end time
is strictly after its start time, so the entry it creates (via `addTimeEntry`)
or the entry it updates in place (the edit dialog) has `endTime > startTime`. -/
theorem entryForm_end_after_start (selectedDay : Int) (v : TimeEntryFormValues)
    (hok : checkTimeEntryForm v = true) :
    (submittedEntryData selectedDay v).startTime < (submittedEntryData selectedDay v).endTime
    ∧ (∀ freshId prev, ∀ e ∈ addTimeEntry freshId (submittedEntryData selectedDay v) prev,
        e ∉ prev → e.startTime < e.endTime)
    ∧ (∀ editing : TimeEntry, (editedEntry selectedDay v editing).startTime
        < (editedEntry selectedDay v editing).endTime)
    ∧ ∀ w : TimeEntryFormValues,
        60 * timeFieldHours w.endTime + timeFieldMins w.endTime
          ≤ 60 * timeFieldHours w.startTime + timeFieldMins w.startTime →
        checkTimeEntryForm w = false := by
  simp only [checkTimeEntryForm, Bool.and_eq_true, decide_eq_true_eq] at hok
  have hlt := hok.2
  have hmain : (submittedEntryData selectedDay v).startTime
      < (submittedEntryData selectedDay v).endTime := by
    simp only [submittedEntryData, createDate]
    omega
  refine ⟨hmain, ?_, ?_, ?_⟩
  · intro freshId prev e he hnot
    rcases List.mem_cons.mp he with rfl | hmem
    · exact hmain
    · exact absurd hmem hnot
  · intro editing
    exact hmain
  · intro w hw
    have hfalse : decide (60 * timeFieldHours w.startTime + timeFieldMins w.startTime
        < 60 * timeFieldHours w.endTime + timeFieldMins w.endTime) = false := by
      simp only [decide_eq_false_iff_not]
      omega
    simp [checkTimeEntryForm, hfalse]

/-- C1 witness: a concrete accepted submission (09:00 to 17:30) yields an
entry with a later end time. -/
theorem entryForm_end_after_start_witness :
    checkTimeEntryForm ⟨"e1", "l1", "09:00".toList, "17:30".toList, none⟩ = true
    ∧ (submittedEntryData 0 ⟨"e1", "l1", "09:00".toList, "17:30".toList, none⟩).startTime
      < (submittedEntryData 0 ⟨"e1", "l1", "09:00".toList, "17:30".toList, none⟩).endTime :=
  ⟨by decide, (entryForm_end_after_start 0 _ (by decide)).1⟩

/-- C2 counterexample: `addTimeEntry` applied to a submission with amount 0
produces a store whose head entry has a defined amount and `paid = false`; and
editing a stored unpaid entry through the edit form while entering an amount
leaves the store with a defined amount on an unpaid entry.  So not every
store-modifying operation preserves the invariant. -/
theorem amountImpliesPaid_cex :
    amountImpliesPaid (addTimeEntry "id-1"
      ⟨"emp-1", "loc-1", 0, 3600000, some 0⟩ []) = false
    ∧ amountImpliesPaid (updateTimeEntry
        (editedEntry 0 ⟨"emp-1", "loc-1", "09:00".toList, "10:00".toList, some 500⟩
          ⟨"t1", "emp-1", "loc-1", 0, 1, false, none⟩)
        [⟨"t1", "emp-1", "loc-1", 0, 1, false, none⟩]) = false := by
  constructor
  · decide
  · decide

/-- C2 amended: `addTimeEntry` marks the new entry paid exactly when the given
amount is defined and strictly positive, so creating an entry with a positive
or absent amount preserves the invariant; the payment-dialog submission and
the unmark-as-unpaid update preserve it as well; and the edit-form submission
keeps the old paid flag while replacing the amount (which is what allows it,
and a creation with amount 0, to break the invariant). -/
theorem amountImpliesPaid_operations (freshId : String) (entry : NewTimeEntry)
    (prev entries : List TimeEntry) (e : TimeEntry) (a selectedDay : Int)
    (v : TimeEntryFormValues) :
    ((∀ a0, entry.amount = some a0 → 0 < a0) → amountImpliesPaid prev = true →
        amountImpliesPaid (addTimeEntry freshId entry prev) = true)
    ∧ (amountImpliesPaid entries = true →
        amountImpliesPaid (updateTimeEntry (paymentSubmitEntry e a) entries) = true)
    ∧ (amountImpliesPaid entries = true →
        amountImpliesPaid (updateTimeEntry (markAsUnpaidEntry e) entries) = true)
    ∧ (editedEntry selectedDay v e).paid = e.paid
    ∧ (editedEntry selectedDay v e).amount = v.amount := by
  refine ⟨?_, ?_, ?_, rfl, rfl⟩
  · intro hpos hprev
    simp only [amountImpliesPaid, addTimeEntry, List.all_cons, Bool.and_eq_true]
    refine ⟨?_, hprev⟩
    cases ha : entry.amount with
    | none => simp
    | some a0 =>
      have := hpos a0 ha
      simp [ha, paidOfAmount, this]
  · intro hinv
    simp only [amountImpliesPaid, updateTimeEntry, List.all_eq_true] at hinv ⊢
    intro x hx
    rcases List.mem_map.mp hx with ⟨y, hy, rfl⟩
    split
    · simp [paymentSubmitEntry]
    · exact hinv y hy
  · intro hinv
    simp only [amountImpliesPaid, updateTimeEntry, List.all_eq_true] at hinv ⊢
    intro x hx
    rcases List.mem_map.mp hx with ⟨y, hy, rfl⟩
    split
    · simp [markAsUnpaidEntry]
    · exact hinv y hy

/-- C2 amended witness: the operations at concrete inputs. -/
theorem amountImpliesPaid_operations_witness :
    amountImpliesPaid (addTimeEntry "id-1"
      ⟨"emp-1", "loc-1", 0, 3600000, some 25000⟩ []) = true :=
  (amountImpliesPaid_operations "id-1" ⟨"emp-1", "loc-1", 0, 3600000, some 25000⟩ [] []
      ⟨"x", "emp-1", "loc-1", 0, 1, false, none⟩ 0 0 ⟨"", "", [], [], none⟩).1
    (by intro a0 h; cases h; decide) (by decide)

/-- C3: `deleteEmployee` and `deleteLocation` are atomic on error: when some
stored entry references the id, the call returns the state unchanged together
with a destructive toast; when no entry references it, it returns no toast,
leaves the entries (and the other list) unchanged, and the record list keeps
exactly the records with a different id. -/
theorem deleteGuards_atomic (s : AppState) (id : String) :
    ((∃ e ∈ s.timeEntries, e.employeeId = id) →
      deleteEmployee id s = (s, some ⟨"deleteErrorTitle",
        "deleteEmployeeErrorDescription", "destructive"⟩))
    ∧ ((∀ e ∈ s.timeEntries, e.employeeId ≠ id) →
      (deleteEmployee id s).2 = none
      ∧ (deleteEmployee id s).1.timeEntries = s.timeEntries
      ∧ (deleteEmployee id s).1.locations = s.locations
      ∧ ∀ emp : Employee,
          emp ∈ (deleteEmployee id s).1.employees ↔ emp ∈ s.employees ∧ emp.id ≠ id)
    ∧ ((∃ e ∈ s.timeEntries, e.locationId = id) →
      deleteLocation id s = (s, some ⟨"deleteErrorTitle",
        "deleteLocationErrorDescription", "destructive"⟩))
    ∧ ((∀ e ∈ s.timeEntries, e.locationId ≠ id) →
      (deleteLocation id s).2 = none
      ∧ (deleteLocation id s).1.timeEntries = s.timeEntries
      ∧ (deleteLocation id s).1.employees = s.employees
      ∧ ∀ loc : Location,
          loc ∈ (deleteLocation id s).1.locations ↔ loc ∈ s.locations ∧ loc.id ≠ id) := by
  refine ⟨?_, ?_, ?_, ?_⟩
  · intro hsome
    have hany : s.timeEntries.any (fun entry => entry.employeeId == id) = true := by
      rw [List.any_eq_true]
      obtain ⟨e, he, heq⟩ := hsome
      exact ⟨e, he, by simp [heq]⟩
    simp [deleteEmployee, hany]
  · intro hnone
    have hany : s.timeEntries.any (fun entry => entry.employeeId == id) = false := by
      rw [List.any_eq_false]
      intro e he
      simp [hnone e he]
    refine ⟨by simp [deleteEmployee, hany], by simp [deleteEmployee, hany],
      by simp [deleteEmployee, hany], ?_⟩
    intro emp
    simp [deleteEmployee, hany, List.mem_filter]
  · intro hsome
    have hany : s.timeEntries.any (fun entry => entry.locationId == id) = true := by
      rw [List.any_eq_true]
      obtain ⟨e, he, heq⟩ := hsome
      exact ⟨e, he, by simp [heq]⟩
    simp [deleteLocation, hany]
  · intro hnone
    have hany : s.timeEntries.any (fun entry => entry.locationId == id) = false := by
      rw [List.any_eq_false]
      intro e he
      simp [hnone e he]
    refine ⟨by simp [deleteLocation, hany], by simp [deleteLocation, hany],
      by simp [deleteLocation, hany], ?_⟩
    intro loc
    simp [deleteLocation, hany, List.mem_filter]

/-- C3 witness: concrete stores on both sides of the guard. -/
theorem deleteGuards_atomic_witness :
    deleteEmployee "emp-1"
      ⟨[⟨"t1", "emp-1", "loc-1", 0, 1, false, none⟩], [⟨"emp-1", "Ada"⟩], []⟩
      = (⟨[⟨"t1", "emp-1", "loc-1", 0, 1, false, none⟩], [⟨"emp-1", "Ada"⟩], []⟩,
         some ⟨"deleteErrorTitle", "deleteEmployeeErrorDescription", "destructive"⟩)
    ∧ (deleteEmployee "emp-2"
        ⟨[⟨"t1", "emp-1", "loc-1", 0, 1, false, none⟩],
         [⟨"emp-1", "Ada"⟩, ⟨"emp-2", "Grace"⟩], []⟩).1.employees
      = [⟨"emp-1", "Ada"⟩] := by
  constructor
  · exact (deleteGuards_atomic
      ⟨[⟨"t1", "emp-1", "loc-1", 0, 1, false, none⟩], [⟨"emp-1", "Ada"⟩], []⟩ "emp-1").1
      ⟨⟨"t1", "emp-1", "loc-1", 0, 1, false, none⟩, by simp, rfl⟩
  · have h := (deleteGuards_atomic
      ⟨[⟨"t1", "emp-1", "loc-1", 0, 1, false, none⟩],
       [⟨"emp-1", "Ada"⟩, ⟨"emp-2", "Grace"⟩], []⟩ "emp-2").2.1
      (by intro e he; simp at he; subst he; decide)
    decide

/-- C10: `addTimeEntry` prepends a single new entry, leaves every existing
entry unchanged, gives the new entry the freshly generated id, and marks it
paid exactly when the supplied amount is defined and strictly positive, so an
amount of 0 yields an unpaid entry. -/
theorem addTimeEntry_spec (freshId : String) (entry : NewTimeEntry)
    (prev : List TimeEntry) :
    addTimeEntry freshId entry prev
      = { id := freshId, employeeId := entry.employeeId, locationId := entry.locationId,
          startTime := entry.startTime, endTime := entry.endTime,
          paid := paidOfAmount entry.amount, amount := entry.amount } :: prev
    ∧ (addTimeEntry freshId entry prev).tail = prev
    ∧ ((addTimeEntry freshId entry prev).head?.map TimeEntry.id = some freshId)
    ∧ (paidOfAmount entry.amount = true ↔ ∃ a, entry.amount = some a ∧ 0 < a)
    ∧ (entry.amount = some 0 → paidOfAmount entry.amount = false) := by
  refine ⟨rfl, rfl, rfl, paidOfAmount_iff entry.amount, ?_⟩
  intro h
  rw [h]
  decide

/-- C10 witness: adding with amount 0 at a concrete store. -/
theorem addTimeEntry_spec_witness :
    addTimeEntry "id-9" ⟨"emp-1", "loc-1", 5, 9, some 0⟩ []
      = [⟨"id-9", "emp-1", "loc-1", 5, 9, false, some 0⟩]
    ∧ paidOfAmount (some (0 : Int)) = false := by
  have h := addTimeEntry_spec "id-9" ⟨"emp-1", "loc-1", 5, 9, some 0⟩ []
  exact ⟨h.1, h.2.2.2.2 rfl⟩

/-- C4: the hook stores a value's JSON encoding, so writing a value under a
key and reading the key back yields the value again; reading a key with
nothing stored yields the supplied initial value. -/
theorem useLocalStorage_roundtrip (st : LocalStorage) (key : String) (v initialValue : Json) :
    (getStoredValue (.ok (((writeStoredValue st true key v).1).getItem key)) initialValue).1 = v
    ∧ ∀ st0 : LocalStorage, st0.getItem key = none →
        (getStoredValue (.ok (st0.getItem key)) initialValue).1 = initialValue := by
  constructor
  · have hget : ((writeStoredValue st true key v).1).getItem key
        = some (jsonStringify v) := by
      simp [writeStoredValue, LocalStorage.setItem, LocalStorage.getItem]
    rw [hget]
    have hne : (jsonStringify v).isEmpty = false := by
      obtain ⟨c, t, hct, _, _⟩ := jsonStringify_head v
      rw [hct]
      rfl
    simp [getStoredValue, hne, parseJson_stringify v]
  · intro st0 h0
    rw [h0]
    rfl

/-- C4 witness: a concrete write and read under the `timeEntries` key, and a
read from an empty store. -/
theorem useLocalStorage_roundtrip_witness :
    (getStoredValue
        (.ok (((writeStoredValue ⟨[]⟩ true "timeEntries" (Json.arr [])).1).getItem
          "timeEntries")) Json.null).1 = Json.arr []
    ∧ (getStoredValue (.ok ((⟨[]⟩ : LocalStorage).getItem "timeEntries")) Json.null).1
      = Json.null :=
  ⟨(useLocalStorage_roundtrip ⟨[]⟩ "timeEntries" (Json.arr []) Json.null).1,
   (useLocalStorage_roundtrip ⟨[]⟩ "timeEntries" (Json.arr []) Json.null).2 ⟨[]⟩ rfl⟩

/-- C5 counterexample: a missing item is not logged: the hook's ternary falls
back to the initial value silently (the logged flag is false), so not every
read failure named by the claim is logged. -/
theorem storageRead_missing_not_logged :
    getStoredValue (Except.ok none) Json.null = (Json.null, false) := rfl

/-- C5 amended: a storage-access error or a JSON parse error while reading is
caught and logged and yields the initial value; a missing (or empty) item
yields the initial value silently, without logging; a failing write is caught
and logged, leaving the store and the in-memory value unchanged.  All cases
return normally: no exception propagates. -/
theorem storageFailure_handling (initialValue : Json) (item : List Char)
    (st : LocalStorage) (key : String) (v : Json) :
    getStoredValue (.error ()) initialValue = (initialValue, true)
    ∧ (parseJson item = none → item.isEmpty = false →
        getStoredValue (.ok (some item)) initialValue = (initialValue, true))
    ∧ getStoredValue (.ok none) initialValue = (initialValue, false)
    ∧ writeStoredValue st false key v = (st, v, true) := by
  refine ⟨rfl, ?_, rfl, rfl⟩
  intro hp he
  simp [getStoredValue, he, hp]

/-- C5 amended witness: an unparsable item and a failing write at concrete
inputs. -/
theorem storageFailure_handling_witness :
    getStoredValue (.ok (some ['x'])) Json.null = (Json.null, true)
    ∧ writeStoredValue ⟨[]⟩ false "language" Json.null = (⟨[]⟩, Json.null, true) :=
  ⟨(storageFailure_handling Json.null ['x'] ⟨[]⟩ "language" Json.null).2.1 rfl rfl,
   (storageFailure_handling Json.null ['x'] ⟨[]⟩ "language" Json.null).2.2.2⟩

/-- C6 counterexample: the language key does not store a JSON-encoded array:
its stored encoding (initially of the string `ar`) is a JSON string. -/
theorem languageKey_not_array :
    isArrayEncoding (jsonStringify (storedLanguage "ar")) = false := by
  simp [isArrayEncoding, storedLanguage, parseJson_stringify]

/-- C6 amended: the three data keys each store a JSON-encoded array, for every
app state, while the language key stores a JSON-encoded string. -/
theorem storedKeys_shape (entries : List TimeEntry) (employees : List Employee)
    (locations : List Location) (language : String) :
    isArrayEncoding (jsonStringify (storedTimeEntries entries)) = true
    ∧ isArrayEncoding (jsonStringify (storedEmployees employees)) = true
    ∧ isArrayEncoding (jsonStringify (storedLocations locations)) = true
    ∧ parseJson (jsonStringify (storedLanguage language))
        = some (.str language.toList) := by
  refine ⟨?_, ?_, ?_, ?_⟩
  · simp [isArrayEncoding, storedTimeEntries, parseJson_stringify]
  · simp [isArrayEncoding, storedEmployees, parseJson_stringify]
  · simp [isArrayEncoding, storedLocations, parseJson_stringify]
  · exact parseJson_stringify (storedLanguage language)

/-- C7: the workload request carries exactly the selected employee's name, the
rounded sum of the hour durations of that employee's entries started within
the last seven days, and the two numeric limits from the form; the value
delivered to the UI is the response's free-text recommendation string. -/
theorem workloadRequest_spec (model : RecommendationInput → RecommendationOutput)
    (now : Int) (entries : List WorkloadEntry) (employeeName : String)
    (averageWorkloadLimit maxWorkloadLimit : ℚ) :
    workloadRequest now entries employeeName averageWorkloadLimit maxWorkloadLimit
      = ⟨employeeName,
         jsRound ((entries.filter (fun e =>
             e.employeeName == employeeName && now - 7 * 86400000 < e.startTime)).map
           (fun e => ((e.endTime - e.startTime : Int) : ℚ) / 3600000)).sum,
         averageWorkloadLimit, maxWorkloadLimit⟩
    ∧ displayedRecommendation model now entries employeeName averageWorkloadLimit
        maxWorkloadLimit
      = (model (workloadRequest now entries employeeName averageWorkloadLimit
          maxWorkloadLimit)).recommendation := by
  constructor
  · simp only [workloadRequest, calculateDurationInHours]
  · rfl

/-- The overflow check of `drawTableRow`, isolated. -/
theorem drawTableRow_cases (s : PdfCursor) :
    (PAGE_CONTENT_HEIGHT < s.cursorY + tableRowHeight →
      drawTableRow s = (⟨s.page + 1, MARGIN + 15 + 10 + 8 + 10 + tableRowHeight⟩,
        s.page + 1, MARGIN + 15 + 10 + 8 + 10))
    ∧ (s.cursorY + tableRowHeight ≤ PAGE_CONTENT_HEIGHT →
      drawTableRow s = (⟨s.page, s.cursorY + tableRowHeight⟩, s.page, s.cursorY)) := by
  constructor
  · intro h
    simp [drawTableRow, h, drawPageHeader, drawTableHeader]
  · intro h
    have h2 : ¬PAGE_CONTENT_HEIGHT < s.cursorY + tableRowHeight := by omega
    simp [drawTableRow, h2]

/-- A drawn row always fits: either no page break was needed and the check
gives the bound, or the cursor was reset below the redrawn headers. -/
theorem drawTableRow_fit (s : PdfCursor) :
    (drawTableRow s).2.2 + tableRowHeight ≤ PAGE_CONTENT_HEIGHT := by
  by_cases h : PAGE_CONTENT_HEIGHT < s.cursorY + tableRowHeight
  · rw [(drawTableRow_cases s).1 h]
    show MARGIN + 15 + 10 + 8 + 10 + tableRowHeight ≤ PAGE_CONTENT_HEIGHT
    decide
  · rw [(drawTableRow_cases s).2 (by omega)]
    show s.cursorY + tableRowHeight ≤ PAGE_CONTENT_HEIGHT
    omega

theorem drawRows_fit (l : List TimeEntry) : ∀ (s : PdfCursor),
    ∀ pos ∈ (drawRows s l).2, pos.2 + tableRowHeight ≤ PAGE_CONTENT_HEIGHT := by
  induction l with
  | nil =>
    intro s pos hpos
    simp [drawRows] at hpos
  | cons e rest ih =>
    intro s pos hpos
    simp only [drawRows] at hpos
    rcases List.mem_cons.mp hpos with rfl | hmem
    · exact drawTableRow_fit s
    · exact ih (drawTableRow s).1 pos hmem

/-- C8: `drawTableRow` checks before drawing whether the cursor plus the fixed
row height would exceed the page content height, and on overflow adds a page
and redraws the page header and the table header; consequently every table
row of the generated report starts at a cursor position where the row fits
within the page content height. -/
theorem pdfRows_fit (entries : List TimeEntry) :
    (∀ pos ∈ pdfRowPositions entries, pos.2 + tableRowHeight ≤ PAGE_CONTENT_HEIGHT)
    ∧ ∀ s : PdfCursor,
        (PAGE_CONTENT_HEIGHT < s.cursorY + tableRowHeight →
          drawTableRow s = (⟨s.page + 1, MARGIN + 15 + 10 + 8 + 10 + tableRowHeight⟩,
            s.page + 1, MARGIN + 15 + 10 + 8 + 10))
        ∧ (s.cursorY + tableRowHeight ≤ PAGE_CONTENT_HEIGHT →
          drawTableRow s = (⟨s.page, s.cursorY + tableRowHeight⟩, s.page, s.cursorY)) :=
  ⟨fun pos hpos => drawRows_fit (sortedEntries entries) pdfInitialCursor pos hpos,
   fun s => drawTableRow_cases s⟩

/-- C8 witness: the first row of a one-entry report is drawn at y = 118 and
fits; a cursor at y = 230 overflows and is reset below the redrawn headers. -/
theorem pdfRows_fit_witness :
    pdfRowPositions [⟨"t1", "emp-1", "loc-1", 0, 3600000, false, none⟩] = [(1, 118)]
    ∧ (118 : Int) + tableRowHeight ≤ PAGE_CONTENT_HEIGHT
    ∧ drawTableRow ⟨1, 230⟩ = (⟨2, 70⟩, 2, 58) := by
  have hs : sortedEntries [(⟨"t1", "emp-1", "loc-1", 0, 3600000, false, none⟩ : TimeEntry)]
      = [⟨"t1", "emp-1", "loc-1", 0, 3600000, false, none⟩] := by
    simp [sortedEntries]
  have hpos : pdfRowPositions [(⟨"t1", "emp-1", "loc-1", 0, 3600000, false, none⟩ : TimeEntry)]
      = [(1, 118)] := by
    rw [pdfRowPositions, hs]
    decide
  refine ⟨hpos, ?_, ?_⟩
  · exact (pdfRows_fit [⟨"t1", "emp-1", "loc-1", 0, 3600000, false, none⟩]).1
      (1, 118) (by rw [hpos]; decide)
  · exact ((pdfRows_fit []).2 ⟨1, 230⟩).1 (by decide)

/-- Sums of guarded contributions equal sums over the filtered list. -/
theorem sum_map_ite {α M : Type} [AddCommMonoid M] (p : α → Prop) [DecidablePred p]
    (f : α → M) :
    ∀ l : List α, (l.map (fun x => if p x then f x else 0)).sum
      = ((l.filter (fun x => decide (p x))).map f).sum := by
  intro l
  induction l with
  | nil => simp
  | cons y ys ihy =>
    by_cases h : p y <;> simp [h, ihy]

/-- C9: the report's total-hours figure sums the hour durations of exactly
the entries with positive duration (an entry whose end is not after its start
contributes zero), the total-paid figure sums the amounts of exactly the
entries that are paid with a defined non-zero amount, and the table rows are
drawn sorted by start time in descending order (a permutation of the input,
newest first). -/
theorem pdfSummary_spec (entries : List TimeEntry) (e : TimeEntry) :
    pdfTotalHours entries
      = ((entries.filter (fun x => decide (0 < x.endTime - x.startTime))).map
          (fun x => ((x.endTime - x.startTime : Int) : ℚ) / 3600000)).sum
    ∧ (e.endTime ≤ e.startTime → pdfTotalHours (e :: entries) = pdfTotalHours entries)
    ∧ pdfTotalPaid entries
      = ((entries.filter (fun x =>
            x.paid && !(x.amount == none) && !(x.amount == some 0))).map
          (fun x => x.amount.getD 0)).sum
    ∧ (sortedEntries entries).Perm entries
    ∧ (sortedEntries entries).Pairwise (fun a b => b.startTime ≤ a.startTime) := by
  have hhours : ∀ l : List TimeEntry, pdfTotalHours l
      = ((l.filter (fun x => decide (0 < x.endTime - x.startTime))).map
          (fun x => ((x.endTime - x.startTime : Int) : ℚ) / 3600000)).sum := by
    intro l
    rw [pdfTotalHours, foldl_add_eq
      (fun entry => if 0 < entry.endTime - entry.startTime
        then ((entry.endTime - entry.startTime : Int) : ℚ) / 3600000 else 0) l 0]
    rw [zero_add, sum_map_ite]
  refine ⟨hhours entries, ?_, ?_, ?_, ?_⟩
  · intro hle
    have hcond : ¬(decide (0 < e.endTime - e.startTime) = true) := by
      simp only [decide_eq_true_eq]
      omega
    rw [hhours (e :: entries), hhours entries, List.filter_cons, if_neg hcond]
  · rw [pdfTotalPaid, foldl_add_eq (fun entry : TimeEntry => entry.amount.getD 0)
      (entries.filter (fun entry => entry.paid && jsTruthy entry.amount)) 0, zero_add]
    congr 1
    congr 1
    apply List.filter_congr
    intro x _
    cases hx : x.amount with
    | none => simp [jsTruthy, hx]
    | some a =>
      by_cases ha : a = 0 <;> simp [jsTruthy, hx, ha, bne]
  · exact List.mergeSort_perm entries _
  · have h := @List.sorted_mergeSort TimeEntry
      (fun a b => decide (b.startTime ≤ a.startTime))
      (fun a b c hab hbc => by
        simp only [decide_eq_true_eq] at hab hbc ⊢
        omega)
      (fun a b => by
        simp only [Bool.or_eq_true, decide_eq_true_eq]
        omega)
      entries
    exact h.imp (fun hab => by simpa using hab)

/-- C9 witness: an entry of nonpositive duration contributes nothing at a
concrete input. -/
theorem pdfSummary_spec_witness :
    pdfTotalHours [⟨"t1", "emp-1", "loc-1", 5, 5, false, none⟩] = pdfTotalHours [] :=
  (pdfSummary_spec [] ⟨"t1", "emp-1", "loc-1", 5, 5, false, none⟩).2.1 (by decide)
